import Mathlib

/-!
# Verification of pysimsearch core (single-shard engine and index collection)

A shallow embedding of the pysimsearch repository:

* `src/pysimsearch/sim_index/si_simple_map.py` (`SimpleMapSimIndex`),
* `src/pysimsearch/sim_index/si_collection.py` (`SimIndexCollection`),
* `src/pysimsearch/similarity.py` (`cosine_sim`, `jaccard_sim`),

together with theorems settling the specification claims about them.

Python dictionaries are modelled as association lists with CPython update
semantics: writing to an existing key replaces the value in place (the key
keeps its position), writing a fresh key appends it.  Python `hash` is a
model parameter (`String → Int`; CPython 2 string hashes may be negative).
Machine floats are modelled by exact rationals / reals.

Pieces of the repository that the claims need but that are not part of the
provided sources (the `SimIndex` base class in `sim_index.py`, the helpers
of `term_vec.py`, the exception classes of `exceptions.py`) are modelled
from the spec; each such definition carries a doc comment starting with
`Modelled from the spec:`.
-/

/-! ## Python dict model -/

/-- Lookup in a Python dict modelled as an association list: the value of
the first entry whose key matches, if any (`d.get(k)`). -/
def dget {κ α : Type} [DecidableEq κ] : List (κ × α) → κ → Option α
  | [], _ => none
  | (k', v') :: t, k => if k' = k then some v' else dget t k

/-- `d.get(k, dflt)` in Python. -/
def dgetD {κ α : Type} [DecidableEq κ] (m : List (κ × α)) (k : κ) (dflt : α) : α :=
  (dget m k).getD dflt

/-- `d[k] = v` in Python: replace the value at an existing key in place
(CPython keeps the entry position), append a fresh key at the end. -/
def dinsert {κ α : Type} [DecidableEq κ] : List (κ × α) → κ → α → List (κ × α)
  | [], k, v => [(k, v)]
  | (k', v') :: t, k, v => if k' = k then (k, v) :: t else (k', v') :: dinsert t k v

/-- A sequence of Python dict writes, first to last. -/
def dinsertAll {κ α : Type} [DecidableEq κ] (m : List (κ × α)) (es : List (κ × α)) :
    List (κ × α) :=
  es.foldl (fun m p => dinsert m p.1 p.2) m

theorem dget_dinsert {κ α : Type} [DecidableEq κ] (m : List (κ × α)) (a k : κ) (v : α) :
    dget (dinsert m a v) k = if a = k then some v else dget m k := by
  induction m with
  | nil => simp [dinsert, dget]
  | cons hd t ih =>
    obtain ⟨k', v'⟩ := hd
    by_cases ha : k' = a
    · subst ha
      by_cases hk : k' = k
      · subst hk
        simp [dinsert, dget]
      · simp [dinsert, dget, if_neg hk, hk]
    · simp only [dinsert, if_neg ha]
      by_cases hk : k' = k
      · subst hk
        have hak : a ≠ k' := fun h => ha h.symm
        simp [dget, if_neg hak]
      · simp [dget, if_neg hk, ih]

theorem dget_append {κ α : Type} [DecidableEq κ] (l₁ l₂ : List (κ × α)) (k : κ) :
    dget (l₁ ++ l₂) k = (dget l₁ k).orElse (fun _ => dget l₂ k) := by
  induction l₁ with
  | nil => simp [dget]
  | cons h t ih =>
    obtain ⟨k', v'⟩ := h
    by_cases hk : k' = k
    · simp [dget, if_pos hk]
    · simp [dget, if_neg hk, ih]

theorem dinsert_of_dget_eq_none {κ α : Type} [DecidableEq κ]
    (m : List (κ × α)) (k : κ) (v : α) (h : dget m k = none) :
    dinsert m k v = m ++ [(k, v)] := by
  induction m with
  | nil => simp [dinsert]
  | cons hd t ih =>
    obtain ⟨k', v'⟩ := hd
    by_cases hk : k' = k
    · subst hk
      simp [dget] at h
    · simp only [dget, if_neg hk] at h
      simp [dinsert, if_neg hk, ih h]

theorem dget_eq_none_of_forall {κ α : Type} [DecidableEq κ]
    (m : List (κ × α)) (k : κ) (h : ∀ p ∈ m, p.1 ≠ k) : dget m k = none := by
  induction m with
  | nil => rfl
  | cons hd t ih =>
    have hhd : hd.1 ≠ k := h hd (by simp)
    obtain ⟨k', v'⟩ := hd
    simp only [dget, if_neg hhd]
    exact ih (fun p hp => h p (by simp [hp]))

theorem dget_mem {κ α : Type} [DecidableEq κ]
    (m : List (κ × α)) (k : κ) (v : α) (h : dget m k = some v) : (k, v) ∈ m := by
  induction m with
  | nil => simp [dget] at h
  | cons hd t ih =>
    obtain ⟨k', v'⟩ := hd
    by_cases hk : k' = k
    · subst hk
      simp [dget] at h
      simp [h]
    · simp only [dget, if_neg hk] at h
      simp [ih h]

/-- Characterization of a dict after a sequence of writes: the value of a
key is the value of its last write, if it was written at all, and its old
value otherwise. -/
theorem dget_dinsertAll {κ α : Type} [DecidableEq κ]
    (es : List (κ × α)) (m : List (κ × α)) (k : κ) :
    dget (dinsertAll m es) k = (dget es.reverse k).orElse (fun _ => dget m k) := by
  induction es generalizing m with
  | nil => simp [dinsertAll, dget]
  | cons hd t ih =>
    obtain ⟨a, v⟩ := hd
    show dget (dinsertAll (dinsert m a v) t) k = _
    rw [ih]
    simp only [List.reverse_cons, dget_append, dget_dinsert]
    cases hres : dget t.reverse k with
    | some w => simp [Option.orElse]
    | none =>
      simp only [Option.orElse, dget]
      by_cases hk : a = k
      · simp [hk]
      · simp [if_neg hk]

/-! ## Python errors

`Modelled from the spec:` the error taxonomy of §7 (`exceptions.py` is not
among the provided sources) together with the CPython built-in errors that
the embedded code can raise (`NameError` for an unbound name lookup,
`ZeroDivisionError` for `% 0`). -/

inductive PyError where
  | nameError
  | zeroDivisionError
  | notFoundError
  | configurationError
  | inputError
  deriving DecidableEq

/-- `Modelled from the spec:` the three error kinds of the spec's §7
taxonomy (NotFound, Configuration, InputError). -/
def specErrorTaxonomy : List PyError :=
  [PyError.notFoundError, PyError.configurationError, PyError.inputError]

/-! ## Case normalization

CPython 2 `str.lower()` on byte strings lowercases exactly the ASCII
letters `A`..`Z`; `Char.toLower` does the same. -/

/-- Models Python `s.lower()` on the engine's term strings. -/
def pyLower (s : String) : String := ⟨s.data.map Char.toLower⟩

theorem char_toNat_ofNat_of_lt (n : Nat) (h : n < 55296) : (Char.ofNat n).toNat = n := by
  have hv : n.isValidChar := Or.inl h
  rw [Char.ofNat, dif_pos hv]
  simp [Char.ofNatAux, Char.toNat, UInt32.toNat]

theorem char_toLower_eq (c : Char) :
    c.toLower = if c.toNat ≥ 65 ∧ c.toNat ≤ 90 then Char.ofNat (c.toNat + 32) else c := rfl

theorem char_toLower_toLower (c : Char) : c.toLower.toLower = c.toLower := by
  by_cases h : c.toNat ≥ 65 ∧ c.toNat ≤ 90
  · have h1 : c.toLower = Char.ofNat (c.toNat + 32) := by rw [char_toLower_eq, if_pos h]
    have h2 : c.toLower.toNat = c.toNat + 32 := by
      rw [h1]; exact char_toNat_ofNat_of_lt _ (by omega)
    rw [char_toLower_eq c.toLower, if_neg (by omega)]
  · have h1 : c.toLower = c := by rw [char_toLower_eq, if_neg h]
    rw [h1, h1]

theorem pyLower_pyLower (s : String) : pyLower (pyLower s) = pyLower s := by
  simp [pyLower, List.map_map, Function.comp_def, char_toLower_toLower]

/-! ## Single-shard engine: `SimpleMapSimIndex` (si_simple_map.py)

Term vectors produced by the external document-reader contract are sparse
term-to-count mappings; we model them as association lists
`List (String × Nat)` (`doc_reader.term_vec` is an external collaborator,
so indexing operations take the derived term vector directly).

The `SimIndex` base class (`sim_index.py`) is not among the provided
sources; its fields and trivial accessors used here (`_N`, `_global_N`,
`get_local_N`, `set_global_N`, the `lowercase` config option) are modelled
from the spec (§3: local and global corpus size, configuration options). -/

/-- `Modelled from the spec:` the L2 norm of a term vector
(`term_vec.l2_norm`; `term_vec.py` is not among the provided sources).
Pinned by the repository test `l2_norm({a:1,b:2,c:5}) = sqrt(30)`. -/
noncomputable def l2_norm_tv (tv : List (String × Nat)) : ℝ :=
  Real.sqrt ((tv.map (fun p => ((p.2 : ℝ)) ^ 2)).sum)

/-- State of a `SimpleMapSimIndex` (si_simple_map.py, `__init__`).
Fields `localN` and `globalN` model the base-class attributes `_N` and
`_global_N` (`Modelled from the spec:` §3 corpus sizes); `lowercase`
models `self._config` restricted to the one option the claims touch. -/
structure SimpleMapSimIndex where
  name_to_docid_map : List (String × Nat)
  docid_to_name_map : List (Nat × String)
  term_index : List (String × List (Nat × Nat))
  df_map : List (String × Nat)
  doc_len_map : List (Nat × ℝ)
  global_df_map : Option (List (String × Nat))
  localN : Nat
  globalN : Option Nat
  lowercase : Bool

namespace SimpleMapSimIndex

/-- A freshly constructed engine (all maps empty, no global stats). -/
def init (lc : Bool) : SimpleMapSimIndex :=
  ⟨[], [], [], [], [], none, 0, none, lc⟩

/-- `if self.config('lowercase'): term = term.lower()` -/
def normTerm (lc : Bool) (term : String) : String :=
  if lc then pyLower term else term

/-- `set_global_df_map` (si_simple_map.py line 104). -/
def set_global_df_map (st : SimpleMapSimIndex) (df_map : List (String × Nat)) :
    SimpleMapSimIndex :=
  { st with global_df_map := some df_map }

/-- `get_local_df_map` (si_simple_map.py line 107). -/
def get_local_df_map (st : SimpleMapSimIndex) : List (String × Nat) := st.df_map

/-- `get_name_to_docid_map` (si_simple_map.py line 110). -/
def get_name_to_docid_map (st : SimpleMapSimIndex) : List (String × Nat) :=
  st.name_to_docid_map

/-- `get_local_N`: `Modelled from the spec:` base-class accessor returning
the shard's local corpus size `_N` (used by the aggregator's
reconciliation; `sim_index.py` is not among the provided sources). -/
def get_local_N (st : SimpleMapSimIndex) : Nat := st.localN

/-- `set_global_N`: `Modelled from the spec:` base-class mutator storing a
collection-wide corpus size in `_global_N`. -/
def set_global_N (st : SimpleMapSimIndex) (n : Nat) : SimpleMapSimIndex :=
  { st with globalN := some n }

/-- `get_doc_freq` (si_simple_map.py lines 113-115):
`df_map = self._global_df_map or self._df_map; return df_map.get(term, 1)`.
Python `or` takes the right operand when the left is falsy, and both
`None` and the empty dict are falsy. -/
def get_doc_freq (st : SimpleMapSimIndex) (term : String) : Nat :=
  let df_map := match st.global_df_map with
    | some g => if g = [] then st.df_map else g
    | none => st.df_map
  dgetD df_map term 1

/-- `get_doc_len` (si_simple_map.py lines 117-118). -/
def get_doc_len (st : SimpleMapSimIndex) (docid : Nat) : ℝ :=
  dgetD st.doc_len_map docid 0

/-- `postings_list` (si_simple_map.py lines 161-168). -/
def postings_list (st : SimpleMapSimIndex) (term : String) : List (Nat × Nat) :=
  dgetD st.term_index (normTerm st.lowercase term) []

/-- The batched updates built by `_add_vec` (si_simple_map.py lines
142-147): `term_index = defaultdict(list);
for (term, freq) in term_vec.iteritems(): ... term_index[term].append((docid, freq))`. -/
def add_vec_batch (lc : Bool) (docid : Nat) (t_vec : List (String × Nat)) :
    List (String × List (Nat × Nat)) :=
  t_vec.foldl
    (fun acc p =>
      dinsert acc (normTerm lc p.1) (dgetD acc (normTerm lc p.1) [] ++ [(docid, p.2)]))
    []

/-- `_add_vec` (si_simple_map.py lines 140-151).  The update loop
`self._term_index[term] = self.postings_list(term) + new_postings` reads
the current postings through `postings_list`, which normalizes the (already
normalized) batch key again. -/
def add_vec (st : SimpleMapSimIndex) (docid : Nat) (t_vec : List (String × Nat)) :
    SimpleMapSimIndex :=
  let batch := add_vec_batch st.lowercase docid t_vec
  let ti := batch.foldl
    (fun ti p => dinsert ti p.1 (dgetD ti (normTerm st.lowercase p.1) [] ++ p.2))
    st.term_index
  { st with term_index := ti }

/-- The body of the `index_files` loop for one document (si_simple_map.py
lines 125-138), taking the term vector `doc_reader.term_vec` returned for
the document. -/
noncomputable def index_one (st : SimpleMapSimIndex) (name : String)
    (t_vec : List (String × Nat)) : SimpleMapSimIndex :=
  let docid := st.localN
  let st1 := { st with
    name_to_docid_map := dinsert st.name_to_docid_map name docid,
    docid_to_name_map := dinsert st.docid_to_name_map docid name }
  let st2 := { st1 with
    df_map := t_vec.foldl
      (fun m p => dinsert m (normTerm st.lowercase p.1) (dgetD m (normTerm st.lowercase p.1) 0 + 1))
      st1.df_map }
  let st3 := add_vec st2 docid t_vec
  let st4 := { st3 with doc_len_map := dinsert st3.doc_len_map docid (l2_norm_tv t_vec) }
  { st4 with localN := st4.localN + 1 }

/-- `index_files` (si_simple_map.py lines 120-138) over the term vectors
derived for the named documents. -/
noncomputable def index_files (st : SimpleMapSimIndex)
    (named_vecs : List (String × List (String × Nat))) : SimpleMapSimIndex :=
  named_vecs.foldl (fun s p => index_one s p.1 p.2) st

end SimpleMapSimIndex

/-! ## Similarity measures (similarity.py)

`cosine_sim` and `jaccard_sim` are in the provided sources; the helpers
they call (`dot_product`, `l2_norm`, `mag_intersect`, `mag_union`) live in
`term_vec.py`, which is not among the provided sources, and are modelled
from the spec and pinned by the repository unit tests
(`pysimsearch_test.py`, `TermVecTest`).  Weights are modelled as exact
rationals (the tests use fractional weights such as `0.5`). -/

/-- `Modelled from the spec:` `term_vec.dot_product` -- the inner product
of two sparse term vectors.  Pinned by the test
`dot_product({a:1,b:2,c:0.5}, {a:2,c:2,d:100}) = 3`. -/
def dot_product (u v : List (String × ℚ)) : ℚ :=
  u.foldl (fun acc p => acc + p.2 * dgetD v p.1 0) 0

/-- `Modelled from the spec:` `term_vec.l2_norm` -- the L2 norm
`sqrt(<v,v>)`.  Pinned by the test `l2_norm({a:1,b:2,c:5}) = sqrt(30)`. -/
noncomputable def l2_norm (v : List (String × ℚ)) : ℝ :=
  Real.sqrt ((dot_product v v : ℚ) : ℝ)

/-- `cosine_sim` (similarity.py lines 110-115):
`dot_product(u, v) / (l2_norm(u) * l2_norm(v))`. -/
noncomputable def cosine_sim (u v : List (String × ℚ)) : ℝ :=
  ((dot_product u v : ℚ) : ℝ) / (l2_norm u * l2_norm v)

/-- `Modelled from the spec:` `term_vec.mag_intersect` -- the magnitude of
the multiset intersection (per-term minimum).  Pinned by the test
`mag_intersect({a:1,b:2,c:5}, {a:1,c:2,d:3}) = 3`. -/
def mag_intersect (A B : List (String × ℚ)) : ℚ :=
  A.foldl (fun acc p => acc + min p.2 (dgetD B p.1 0)) 0

/-- `Modelled from the spec:` `term_vec.mag_union` -- the magnitude of the
multiset union as implemented in the repository: the total weight of both
vectors.  Pinned by the test `mag_union({a:1,b:2,c:5}, {a:1,c:2,d:3}) = 14`
(which rules out a per-term maximum, since that would give 11). -/
def mag_union (A B : List (String × ℚ)) : ℚ :=
  (A.map (fun p => p.2)).sum + (B.map (fun p => p.2)).sum

/-- `jaccard_sim` (similarity.py lines 117-123):
`mag_intersect(A, B) / mag_union(A, B)`. -/
def jaccard_sim (A B : List (String × ℚ)) : ℚ :=
  mag_intersect A B / mag_union A B

/-! ## Index collection (si_collection.py) -/

/-- The value held by the `shard_func` attribute of a `SimIndexCollection`.
`__init__` binds it to the bound method `self.default_shard_func` (which
reads the CURRENT shard count at call time); nothing in the class ever
rebinds it (`set_shard_func` writes the distinct attribute `_shard_func`). -/
inductive ShardFuncSlot where
  | defaultFunc : ShardFuncSlot
  | custom (f : String → Int) : ShardFuncSlot

/-- State of a `SimIndexCollection` (si_collection.py, `__init__`).  The
field `shard_func_attr` models the attribute `shard_func`; the field
`shard_func_underscore_attr` models the attribute `_shard_func` (written
only by `set_shard_func`).  Shards are leaf engines. -/
structure SimIndexCollection where
  shards : List SimpleMapSimIndex
  shard_func_attr : ShardFuncSlot
  shard_func_underscore_attr : Option (String → Int)
  name_to_docid_map : List (String × String)
  docid_to_name_map : List (String × String)

namespace SimIndexCollection

/-- `__init__` (si_collection.py lines 82-88). -/
def init : SimIndexCollection :=
  ⟨[], ShardFuncSlot.defaultFunc, none, [], []⟩

/-- `clear_shards` (si_collection.py lines 102-103). -/
def clear_shards (st : SimIndexCollection) : SimIndexCollection :=
  { st with shards := [] }

/-- `add_shards` (si_collection.py lines 105-108); configuration
propagation is irrelevant to the claims and the added shards are taken as
already configured. -/
def add_shards (st : SimIndexCollection) (new : List SimpleMapSimIndex) :
    SimIndexCollection :=
  { st with shards := st.shards ++ new }

/-- `default_shard_func` (si_collection.py lines 110-112):
`hash(shard_key) % len(self._shards)`.  Python `hash` is the model
parameter `hash`; CPython raises `ZeroDivisionError` when the shard list
is empty, and `%` on ints is floor-mod (`Int.fmod`), whose result lies in
`[0, n)` for a positive modulus even for negative hashes. -/
def default_shard_func (hash : String → Int) (st : SimIndexCollection)
    (shard_key : String) : Except PyError Int :=
  if st.shards.length = 0 then Except.error PyError.zeroDivisionError
  else Except.ok (Int.fmod (hash shard_key) st.shards.length)

/-- `set_shard_func` (si_collection.py lines 114-115):
`self._shard_func = func`. -/
def set_shard_func (st : SimIndexCollection) (f : String → Int) : SimIndexCollection :=
  { st with shard_func_underscore_attr := some f }

/-- Evaluation of `self.shard_func(key)` as performed by the indexing
dispatch (si_collection.py line 150). -/
def eval_shard_func (hash : String → Int) (st : SimIndexCollection) (key : String) :
    Except PyError Int :=
  match st.shard_func_attr with
  | ShardFuncSlot.defaultFunc => default_shard_func hash st key
  | ShardFuncSlot.custom f => Except.ok (f key)

/-- Names bound in the scopes enclosing the body of
`SimIndexCollection.set_global_df_map`: its locals (`self`, `df_map`) and
the module-level names of si_collection.py (`__future__` imports,
`defaultdict`, `operator`, `SimIndex`, the class itself, and the names
re-exported by `from ..exceptions import *`, which per the spec's §7 are
the error classes -- `Modelled from the spec:` none of them is
`sim_index_shards`). -/
def set_global_df_map_visible_names : List String :=
  ["self", "df_map",
   "division", "absolute_import", "print_function", "unicode_literals",
   "defaultdict", "operator", "SimIndex", "SimIndexCollection",
   "Error", "NotFoundError", "ConfigurationError", "InputError"]

/-- `set_global_df_map` (si_collection.py lines 117-119):

`for shard in sim_index_shards: shard.set_global_df_map(df_map)`

The loop iterates over the name `sim_index_shards`, which is bound
neither locally nor at module level nor as a CPython builtin, so the
lookup raises `NameError` before any shard is touched. -/
def set_global_df_map (st : SimIndexCollection) (df_map : List (String × Nat)) :
    Except PyError SimIndexCollection :=
  if "sim_index_shards" ∈ set_global_df_map_visible_names then
    Except.ok { st with
      shards := st.shards.map (fun sh => sh.set_global_df_map df_map) }
  else Except.error PyError.nameError

/-- `get_name_to_docid_map` (si_collection.py lines 124-125). -/
def get_name_to_docid_map (st : SimIndexCollection) : List (String × String) :=
  st.name_to_docid_map

/-- The grouping step of `index_string_buffers` (si_collection.py lines
144-150): build `sharded_input_map`, a dict from shard id to the
sub-batch routed there, keyed by `self.shard_func(name)`.  Each entry of
the result is exactly one batched `index_string_buffers` call issued to
that shard (lines 154-157). -/
def sharded_input_map (hash : String → Int) (st : SimIndexCollection)
    (named_string_buffers : List (String × String)) :
    Except PyError (List (Int × List (String × String))) :=
  named_string_buffers.foldlM
    (fun acc p => do
      let sid ← eval_shard_func hash st p.1
      pure (dinsert acc sid (dgetD acc sid [] ++ [p])))
    []

/-- Decimal rendering of a natural number, as Python `"{}".format(n)`
produces it. -/
def natDecimal (n : Nat) : List Char :=
  if n = 0 then ['0']
  else ((Nat.digits 10 n).reverse).map (fun d => Char.ofNat (48 + d))

/-- `make_global_docid` (si_collection.py lines 186-188):
`"{}-{}".format(shard_id, docid)` -- the decimal shard id, a dash, the
decimal local docid. -/
def make_global_docid (shard_id docid : Nat) : String :=
  ⟨natDecimal shard_id ++ '-' :: natDecimal docid⟩

/-- The comparison installed by
`results.sort(key=operator.itemgetter(1), reverse=True)`: descending by
score. -/
def scoreDesc (a b : String × ℚ) : Bool := decide (b.2 ≤ a.2)

/-- `query` (si_collection.py lines 222-233): extend `results` with each
shard's results for the same, unmodified query vector, then
`results.sort(key=operator.itemgetter(1), reverse=True)` (a stable sort,
modelled by a stable merge sort on the descending-score comparison).
Shards are queried through their own `query` contract, modelled as
functions from query vectors to result sequences; scores are exact
rationals. -/
def query (shard_query : List (List (String × ℚ) → List (String × ℚ)))
    (query_vec : List (String × ℚ)) : List (String × ℚ) :=
  ((shard_query.map (fun s => s query_vec)).flatten).mergeSort scoreDesc

/-- `merge_df_map` (si_collection.py lines 243-249): per-term addition of
`source` into `target`. -/
def merge_df_map (target source : List (String × Nat)) : List (String × Nat) :=
  source.foldl (fun t p => dinsert t p.1 (dgetD t p.1 0 + p.2)) target

/-- The `global_N` accumulated by `update_global_stats` (si_collection.py
lines 252-257). -/
def collect_global_N (shards : List SimpleMapSimIndex) : Nat :=
  shards.foldl (fun acc sh => acc + sh.get_local_N) 0

/-- The `global_df_map` accumulated by `update_global_stats`
(si_collection.py lines 253-258). -/
def collect_global_df_map (shards : List SimpleMapSimIndex) : List (String × Nat) :=
  shards.foldl (fun m sh => merge_df_map m sh.get_local_df_map) []

/-- The `name_to_docid_maps` dict collected by `update_global_stats`
(si_collection.py lines 254-259), keyed by shard id `0 .. k-1`; its
`iteritems()` iteration is modelled in ascending shard id (CPython 2
iterates a small-int-keyed dict in that order). -/
def shard_name_maps (shards : List SimpleMapSimIndex) :
    List (Nat × List (String × Nat)) :=
  (shards.map (fun sh => sh.get_name_to_docid_map)).enum

/-- The bimap write-backs of `update_global_stats` (si_collection.py lines
266-271): for every shard and every `(name, docid)` of its name map,
`self._name_to_docid_map[name] = gdocid` and
`self._docid_to_name_map[gdocid] = name`.  The prior contents are never
cleared. -/
def patch_bimaps (n2d d2n : List (String × String))
    (maps : List (Nat × List (String × Nat))) :
    List (String × String) × List (String × String) :=
  maps.foldl
    (fun acc sm =>
      sm.2.foldl
        (fun acc2 p =>
          let gdocid := make_global_docid sm.1 p.2
          (dinsert acc2.1 p.1 gdocid, dinsert acc2.2 gdocid p.1))
        acc)
    (n2d, d2n)

/-- `update_global_stats` (si_collection.py lines 235-271): collect local
stats from every shard, broadcast the aggregated `global_N` and
`global_df_map` back to every shard (via the leaf setters -- the leaf
`set_global_df_map` of si_simple_map.py, not the collection's own), then
write the translated name/docid entries into the collection's bimaps. -/
def update_global_stats (st : SimIndexCollection) : SimIndexCollection :=
  let global_N := collect_global_N st.shards
  let global_df_map := collect_global_df_map st.shards
  let name_to_docid_maps := shard_name_maps st.shards
  let shards2 := st.shards.map
    (fun sh => (sh.set_global_N global_N).set_global_df_map global_df_map)
  let bimaps := patch_bimaps st.name_to_docid_map st.docid_to_name_map name_to_docid_maps
  { st with shards := shards2, name_to_docid_map := bimaps.1,
            docid_to_name_map := bimaps.2 }

end SimIndexCollection

/-! ## Concrete states used by witnesses and counterexamples -/

/-- The term vectors of the spec's similarity scenario. -/
def simU : List (String × ℚ) := [("a", 1), ("b", 2), ("c", 5)]

def simV : List (String × ℚ) := [("a", 1), ("c", 2), ("d", 3)]

/-- A freshly constructed leaf engine, lowercase option off. -/
def leafPlain : SimpleMapSimIndex := SimpleMapSimIndex.init false

/-- A collection of two freshly constructed shards. -/
def collTwoShards : SimIndexCollection :=
  { shards := [leafPlain, leafPlain],
    shard_func_attr := ShardFuncSlot.defaultFunc,
    shard_func_underscore_attr := none,
    name_to_docid_map := [], docid_to_name_map := [] }

/-- A constant sharding function, routing everything to shard 1. -/
def constOneShardFunc : String → Int := fun _ => 1

/-- A model `hash` sending every string to 0. -/
def hashZero : String → Int := fun _ => 0

/-- A model `hash` sending every string to -7 (CPython 2 string hashes
may be negative). -/
def hashNeg : String → Int := fun _ => -7

/-! ## Claims -/

/-- C9: on the term vectors `u = {a:1, b:2, c:5}` and `v = {a:1, c:2, d:3}`,
`cosine_sim(u, v)` equals `11 / (sqrt(30) * sqrt(14))` and the multiset
`jaccard_sim(u, v)` equals the exact rational `3/14`. -/
theorem claim_C9_similarity_scenario :
    cosine_sim simU simV = 11 / (Real.sqrt 30 * Real.sqrt 14) ∧
    jaccard_sim simU simV = 3 / 14 := by
  constructor
  · have hd : dot_product simU simV = 11 := by
      simp +decide [dot_product, dgetD, dget, simU, simV]
      norm_num
    have hu : dot_product simU simU = 30 := by
      simp +decide [dot_product, dgetD, dget, simU]
      norm_num
    have hv : dot_product simV simV = 14 := by
      simp +decide [dot_product, dgetD, dget, simV]
      norm_num
    rw [cosine_sim, l2_norm, l2_norm, hd, hu, hv]
    norm_num
  · have hi : mag_intersect simU simV = 3 := by
      simp +decide [mag_intersect, dgetD, dget, simU, simV]
      norm_num
    have hm : mag_union simU simV = 14 := by
      simp [mag_union, simU, simV]
      norm_num
    rw [jaccard_sim, hi, hm]

/-- C10: with at least one shard, `default_shard_func` returns
`hash(key) % shard_count`, which lies in `[0, shard_count)` (CPython
floor-mod with a positive modulus, for negative hashes too), so the shard
lookup of the indexing dispatch is in bounds; with no shards it raises
`ZeroDivisionError`, an error kind outside the spec's
NotFound/Configuration/InputError taxonomy. -/
theorem claim_C10_default_shard_func :
    ∀ (hash : String → Int) (st : SimIndexCollection) (key : String),
      (0 < st.shards.length →
        SimIndexCollection.default_shard_func hash st key =
          Except.ok (Int.fmod (hash key) st.shards.length) ∧
        0 ≤ Int.fmod (hash key) st.shards.length ∧
        Int.fmod (hash key) st.shards.length < st.shards.length) ∧
      (st.shards.length = 0 →
        SimIndexCollection.default_shard_func hash st key =
          Except.error PyError.zeroDivisionError ∧
        PyError.zeroDivisionError ∉ specErrorTaxonomy) := by
  intro hash st key
  constructor
  · intro hpos
    have hlen : (st.shards.length : Int) > 0 := by exact_mod_cast hpos
    refine ⟨?_, Int.fmod_nonneg' _ hlen, Int.fmod_lt_of_pos _ hlen⟩
    rw [SimIndexCollection.default_shard_func, if_neg (by omega)]
  · intro hzero
    refine ⟨?_, by decide⟩
    rw [SimIndexCollection.default_shard_func, if_pos hzero]

theorem claim_C10_default_shard_func_witness :
    (0 < collTwoShards.shards.length ∧
      SimIndexCollection.default_shard_func hashNeg collTwoShards "x" =
        Except.ok (Int.fmod (hashNeg "x") collTwoShards.shards.length) ∧
      0 ≤ Int.fmod (hashNeg "x") collTwoShards.shards.length ∧
      Int.fmod (hashNeg "x") collTwoShards.shards.length <
        collTwoShards.shards.length) ∧
    (SimIndexCollection.init.shards.length = 0 ∧
      SimIndexCollection.default_shard_func hashNeg SimIndexCollection.init "x" =
        Except.error PyError.zeroDivisionError ∧
      PyError.zeroDivisionError ∉ specErrorTaxonomy) :=
  ⟨⟨by decide, (claim_C10_default_shard_func hashNeg collTwoShards "x").1 (by decide)⟩,
   ⟨by decide, (claim_C10_default_shard_func hashNeg SimIndexCollection.init "x").2 rfl⟩⟩

/-- C1: FALSIFIED BY THE CODE (code bug).  For every collection state and
every df map, `SimIndexCollection.set_global_df_map` raises `NameError`
instead of installing the map on the shards: its loop iterates over the
unbound name `sim_index_shards` (si_collection.py line 118), so the
statistic-setter contract of §4.1 is not satisfied and the broadcast step
of `update_global_stats` would crash on a shard that is itself a
collection. -/
theorem claim_C1_collection_set_global_df_map_raises :
    ∀ (st : SimIndexCollection) (df_map : List (String × Nat)),
      SimIndexCollection.set_global_df_map st df_map =
        Except.error PyError.nameError := by
  intro st df_map
  rfl

/-- C2: FALSIFIED BY THE CODE (code bug).  `set_shard_func` stores the new
function in the attribute `_shard_func`, but the indexing dispatch reads
the attribute `shard_func` (bound once in `__init__` to the default), so
installing `f` leaves every subsequent grouping keyed by the default
hash-modulo function.  Concretely: with two shards, `f = (const 1)` and a
name hashing to 0, the batch for name `x` is routed to shard 0 although
`f x = 1`. -/
theorem claim_C2_set_shard_func_not_used :
    (∀ (st : SimIndexCollection) (f : String → Int) (hash : String → Int)
        (items : List (String × String)),
      SimIndexCollection.sharded_input_map hash (st.set_shard_func f) items =
        SimIndexCollection.sharded_input_map hash st items ∧
      (st.set_shard_func f).shard_func_underscore_attr = some f ∧
      (st.set_shard_func f).shard_func_attr = st.shard_func_attr) ∧
    SimIndexCollection.sharded_input_map hashZero
        (collTwoShards.set_shard_func constOneShardFunc) [("x", "body")] =
      Except.ok [(0, [("x", "body")])] ∧
    constOneShardFunc "x" = 1 :=
  ⟨fun _ _ _ _ => ⟨rfl, rfl, rfl⟩, rfl, rfl⟩

/-- A leaf engine whose local df map records term `a` in 5 documents
(the state an engine reaches after indexing such documents). -/
def leafDfA : SimpleMapSimIndex :=
  { SimpleMapSimIndex.init false with df_map := [("a", 5)] }

/-- C5, counterexample: supplying an EMPTY global df map via
`set_global_df_map` does not make `get_doc_freq` read the global map.
The global map is installed (`global_df_map = some []`), the claim says
`get_doc_freq "a"` must then be the global map's count with default 1,
i.e. 1, but the code returns the local count 5: in
`df_map = self._global_df_map or self._df_map` the empty dict is falsy. -/
theorem claim_C5_counterexample :
    (leafDfA.set_global_df_map []).global_df_map = some [] ∧
    dgetD ([] : List (String × Nat)) "a" 1 = 1 ∧
    (leafDfA.set_global_df_map []).get_doc_freq "a" = 5 := by
  refine ⟨rfl, rfl, ?_⟩
  rfl

/-- C5, amended: `get_doc_freq(term)` returns the global df map's count
for the term (default 1) once a NON-EMPTY global map has been supplied
via `set_global_df_map`; when no global map has been supplied -- or the
supplied map is empty, which Python's `or` treats as falsy -- it returns
the local df map's count (default 1).  `get_doc_len(docid)` returns the
stored L2-norm length for an indexed docid and 0 for an unseen docid. -/
theorem claim_C5_doc_freq_doc_len :
    (∀ (st : SimpleMapSimIndex) (m : List (String × Nat)) (term : String),
      m ≠ [] →
      (st.set_global_df_map m).get_doc_freq term = dgetD m term 1) ∧
    (∀ (st : SimpleMapSimIndex) (term : String),
      st.global_df_map = none ∨ st.global_df_map = some [] →
      st.get_doc_freq term = dgetD st.df_map term 1) ∧
    (∀ (st : SimpleMapSimIndex) (docid : Nat),
      dget st.doc_len_map docid = none →
      st.get_doc_len docid = 0) ∧
    (∀ (st : SimpleMapSimIndex) (name : String) (t_vec : List (String × Nat)),
      (st.index_one name t_vec).get_doc_len st.localN = l2_norm_tv t_vec) := by
  refine ⟨?_, ?_, ?_, ?_⟩
  · intro st m term hm
    simp [SimpleMapSimIndex.get_doc_freq, SimpleMapSimIndex.set_global_df_map, hm]
  · intro st term h
    rcases h with h | h <;> simp [SimpleMapSimIndex.get_doc_freq, h]
  · intro st docid h
    simp [SimpleMapSimIndex.get_doc_len, dgetD, h]
  · intro st name t_vec
    simp [SimpleMapSimIndex.index_one, SimpleMapSimIndex.add_vec,
      SimpleMapSimIndex.get_doc_len, dgetD, dget_dinsert]

theorem claim_C5_doc_freq_doc_len_witness :
    (([("b", 3)] : List (String × Nat)) ≠ [] ∧
      (leafDfA.set_global_df_map [("b", 3)]).get_doc_freq "b" =
        dgetD [("b", 3)] "b" 1) ∧
    (leafPlain.global_df_map = none ∨ leafPlain.global_df_map = some []) ∧
    leafPlain.get_doc_freq "a" = dgetD leafPlain.df_map "a" 1 ∧
    (dget leafPlain.doc_len_map 0 = none ∧ leafPlain.get_doc_len 0 = 0) ∧
    (leafPlain.index_one "doc1" [("hello", 2)]).get_doc_len leafPlain.localN =
      l2_norm_tv [("hello", 2)] :=
  ⟨⟨by decide, claim_C5_doc_freq_doc_len.1 leafDfA [("b", 3)] "b" (by decide)⟩,
   Or.inl rfl,
   claim_C5_doc_freq_doc_len.2.1 leafPlain "a" (Or.inl rfl),
   ⟨rfl, claim_C5_doc_freq_doc_len.2.2.1 leafPlain 0 rfl⟩,
   claim_C5_doc_freq_doc_len.2.2.2 leafPlain "doc1" [("hello", 2)]⟩

/-! ## Decimal parsing facts for `make_global_docid` -/

/-- Decode a decimal digit string (left inverse of `SimIndexCollection.natDecimal`). -/
def decDecode (cs : List Char) : Nat :=
  Nat.ofDigits 10 ((cs.map (fun c => c.toNat - 48)).reverse)

theorem decode_encode_digit (d : Nat) (h : d < 10) :
    (Char.ofNat (48 + d)).toNat - 48 = d := by
  rw [char_toNat_ofNat_of_lt _ (by omega)]
  omega

theorem SimIndexCollection.natDecimal_decode (n : Nat) : decDecode (SimIndexCollection.natDecimal n) = n := by
  by_cases h : n = 0
  · subst h
    rfl
  · have hmap :
        ((Nat.digits 10 n).reverse.map (fun d => Char.ofNat (48 + d))).map
            (fun c => c.toNat - 48) =
          (Nat.digits 10 n).reverse := by
      rw [List.map_map]
      have : ∀ d ∈ (Nat.digits 10 n).reverse,
          ((fun c => c.toNat - 48) ∘ fun d => Char.ofNat (48 + d)) d = id d := by
        intro d hd
        have hdlt : d < 10 :=
          Nat.digits_lt_base (by norm_num) (List.mem_reverse.mp hd)
        simpa using decode_encode_digit d hdlt
      rw [List.map_congr_left this, List.map_id]
    rw [SimIndexCollection.natDecimal, if_neg h, decDecode, hmap, List.reverse_reverse,
      Nat.ofDigits_digits]

theorem SimIndexCollection.natDecimal_ne_dash (n : Nat) : ∀ c ∈ SimIndexCollection.natDecimal n, c ≠ '-' := by
  intro c hc
  by_cases h : n = 0
  · subst h
    simp [SimIndexCollection.natDecimal] at hc
    subst hc
    decide
  · rw [SimIndexCollection.natDecimal, if_neg h] at hc
    obtain ⟨d, hd, hcd⟩ := List.mem_map.mp hc
    have hdlt : d < 10 := Nat.digits_lt_base (by norm_num) (List.mem_reverse.mp hd)
    intro hdash
    have h45 : c.toNat = 45 := by rw [hdash]; decide
    have h48 : c.toNat = 48 + d := by
      rw [← hcd]; exact char_toNat_ofNat_of_lt _ (by omega)
    omega

/-- Splitting a list at a separator that occurs in neither left part is
unambiguous. -/
theorem sep_split {c : Char} :
    ∀ (xs xs' ys ys' : List Char), (∀ a ∈ xs, a ≠ c) → (∀ a ∈ xs', a ≠ c) →
      xs ++ c :: ys = xs' ++ c :: ys' → xs = xs' ∧ ys = ys'
  | [], [], ys, ys', _, _, h => ⟨rfl, by simpa using h⟩
  | [], a' :: t', ys, ys', _, hx', h => by
    have : c = a' := by simpa using congrArg (fun l => l.head?) h
    exact absurd this.symm (hx' a' (by simp))
  | a :: t, [], ys, ys', hx, _, h => by
    have : a = c := by simpa using congrArg (fun l => l.head?) h
    exact absurd this (hx a (by simp))
  | a :: t, a' :: t', ys, ys', hx, hx', h => by
    simp only [List.cons_append, List.cons.injEq] at h
    obtain ⟨hfst, hrest⟩ := h
    have ih := sep_split t t' ys ys'
      (fun b hb => hx b (by simp [hb])) (fun b hb => hx' b (by simp [hb])) hrest
    exact ⟨by rw [hfst, ih.1], ih.2⟩

/-- C8: `make_global_docid(shard_id, local_id) = "{shard_id}-{local_id}"`
is injective on pairs of natural numbers: the decimal parts contain no
dash, so the rendered string determines both components, and documents on
different shards (or with different local ids) never share a global id,
whatever their names. -/
theorem claim_C8_make_global_docid_injective :
    ∀ a b a' b' : Nat,
      SimIndexCollection.make_global_docid a b =
        SimIndexCollection.make_global_docid a' b' →
      a = a' ∧ b = b' := by
  intro a b a' b' h
  rw [SimIndexCollection.make_global_docid, SimIndexCollection.make_global_docid] at h
  injection h with hdata
  obtain ⟨h1, h2⟩ :=
    sep_split _ _ _ _ (SimIndexCollection.natDecimal_ne_dash a) (SimIndexCollection.natDecimal_ne_dash a') hdata
  constructor
  · rw [← SimIndexCollection.natDecimal_decode a, ← SimIndexCollection.natDecimal_decode a', h1]
  · rw [← SimIndexCollection.natDecimal_decode b, ← SimIndexCollection.natDecimal_decode b', h2]

theorem claim_C8_make_global_docid_injective_witness :
    SimIndexCollection.make_global_docid 1 2 =
      SimIndexCollection.make_global_docid 1 2 ∧
    (1 = 1 ∧ 2 = 2) :=
  ⟨rfl, claim_C8_make_global_docid_injective 1 2 1 2 rfl⟩

theorem scoreDesc_trans (a b c : String × ℚ) :
    SimIndexCollection.scoreDesc a b → SimIndexCollection.scoreDesc b c →
    SimIndexCollection.scoreDesc a c := by
  simp only [SimIndexCollection.scoreDesc, decide_eq_true_eq]
  exact fun h1 h2 => le_trans h2 h1

theorem scoreDesc_total (a b : String × ℚ) :
    SimIndexCollection.scoreDesc a b || SimIndexCollection.scoreDesc b a := by
  simp only [SimIndexCollection.scoreDesc, Bool.or_eq_true, decide_eq_true_eq]
  exact le_total b.2 a.2

/-- C7: the collection's `query` dispatches the same, unmodified query
vector to every shard; the returned sequence is a permutation of the
concatenation of the shards' result sequences (so every shard-produced
(name, score) pair appears and nothing else does) and is sorted by score
non-increasing. -/
theorem claim_C7_query_dispatch_and_merge :
    ∀ (shard_query : List (List (String × ℚ) → List (String × ℚ)))
      (query_vec : List (String × ℚ)),
      (SimIndexCollection.query shard_query query_vec).Perm
        ((shard_query.map (fun s => s query_vec)).flatten) ∧
      List.Pairwise (fun a b : String × ℚ => b.2 ≤ a.2)
        (SimIndexCollection.query shard_query query_vec) := by
  intro sq qv
  constructor
  · exact List.mergeSort_perm _ _
  · have hs :=
      List.sorted_mergeSort scoreDesc_trans scoreDesc_total
        ((sq.map (fun s => s qv)).flatten)
    exact hs.imp (fun h => by
      simpa [SimIndexCollection.scoreDesc] using h)

/-! ## Postings-merge facts (`_add_vec`) -/

theorem normTerm_idem (lc : Bool) (t : String) :
    SimpleMapSimIndex.normTerm lc (SimpleMapSimIndex.normTerm lc t) =
      SimpleMapSimIndex.normTerm lc t := by
  cases lc
  · simp [SimpleMapSimIndex.normTerm]
  · simp [SimpleMapSimIndex.normTerm, pyLower_pyLower]

/-- When the normalized keys of the document's term vector are pairwise
distinct, the batch built by `_add_vec` has one singleton group per key,
in document order. -/
theorem add_vec_batch_aux (lc : Bool) (docid : Nat) :
    ∀ (tv : List (String × Nat)) (acc : List (String × List (Nat × Nat))),
      (tv.map (fun p => SimpleMapSimIndex.normTerm lc p.1)).Nodup →
      (∀ p ∈ tv, dget acc (SimpleMapSimIndex.normTerm lc p.1) = none) →
      tv.foldl
          (fun acc p =>
            dinsert acc (SimpleMapSimIndex.normTerm lc p.1)
              (dgetD acc (SimpleMapSimIndex.normTerm lc p.1) [] ++ [(docid, p.2)]))
          acc
        = acc ++ tv.map (fun p => (SimpleMapSimIndex.normTerm lc p.1, [(docid, p.2)])) := by
  intro tv
  induction tv with
  | nil => intro acc _ _; simp
  | cons hd t ih =>
    intro acc hnodup hfresh
    obtain ⟨s, c⟩ := hd
    have hfresh0 : dget acc (SimpleMapSimIndex.normTerm lc s) = none :=
      hfresh (s, c) (by simp)
    have hstep :
        dinsert acc (SimpleMapSimIndex.normTerm lc s)
            (dgetD acc (SimpleMapSimIndex.normTerm lc s) [] ++ [(docid, c)])
          = acc ++ [(SimpleMapSimIndex.normTerm lc s, [(docid, c)])] := by
      rw [dgetD, hfresh0]
      exact dinsert_of_dget_eq_none _ _ _ hfresh0
    rw [List.map_cons, List.nodup_cons] at hnodup
    simp only [List.foldl_cons, hstep]
    rw [ih]
    · simp
    · exact hnodup.2
    · intro p hp
      rw [dget_append]
      rw [hfresh p (by simp [hp])]
      have hne : SimpleMapSimIndex.normTerm lc s ≠ SimpleMapSimIndex.normTerm lc p.1 := by
        have hmem : SimpleMapSimIndex.normTerm lc p.1 ∈
            t.map (fun p => SimpleMapSimIndex.normTerm lc p.1) :=
          List.mem_map.mpr ⟨p, hp, rfl⟩
        exact fun h => hnodup.1 (h ▸ hmem)
      simp [Option.orElse, dget, if_neg hne]

theorem add_vec_batch_eq (lc : Bool) (docid : Nat) (tv : List (String × Nat))
    (h : (tv.map (fun p => SimpleMapSimIndex.normTerm lc p.1)).Nodup) :
    SimpleMapSimIndex.add_vec_batch lc docid tv =
      tv.map (fun p => (SimpleMapSimIndex.normTerm lc p.1, [(docid, p.2)])) := by
  have := add_vec_batch_aux lc docid tv [] h (by intro p _; rfl)
  simpa [SimpleMapSimIndex.add_vec_batch] using this

/-- A key not appearing in the batch is untouched by the `_add_vec`
update loop. -/
theorem dget_add_vec_updates_not_mem (lc : Bool) :
    ∀ (batch ti : List (String × List (Nat × Nat))) (k : String),
      (∀ q ∈ batch, q.1 ≠ k) →
      dget
          (batch.foldl
            (fun ti p =>
              dinsert ti p.1 (dgetD ti (SimpleMapSimIndex.normTerm lc p.1) [] ++ p.2))
            ti)
          k
        = dget ti k := by
  intro batch
  induction batch with
  | nil => intro ti k _; rfl
  | cons hd t ih =>
    intro ti k hne
    simp only [List.foldl_cons]
    rw [ih _ _ (fun q hq => hne q (by simp [hq]))]
    rw [dget_dinsert, if_neg (hne hd (by simp))]

/-- The `_add_vec` update loop sets each batched key to its current
postings followed by the batch's new postings (when batch keys are
pairwise distinct and already normalized). -/
theorem dget_add_vec_updates_mem (lc : Bool) :
    ∀ (batch ti : List (String × List (Nat × Nat))) (k : String) (g : List (Nat × Nat)),
      (batch.map Prod.fst).Nodup →
      (∀ q ∈ batch, SimpleMapSimIndex.normTerm lc q.1 = q.1) →
      (k, g) ∈ batch →
      dget
          (batch.foldl
            (fun ti p =>
              dinsert ti p.1 (dgetD ti (SimpleMapSimIndex.normTerm lc p.1) [] ++ p.2))
            ti)
          k
        = some (dgetD ti k [] ++ g) := by
  intro batch
  induction batch with
  | nil => intro ti k g _ _ hmem; simp at hmem
  | cons hd t ih =>
    intro ti k g hnodup hnorm hmem
    obtain ⟨k0, g0⟩ := hd
    rw [List.map_cons, List.nodup_cons] at hnodup
    have hnodup' := hnodup
    rcases List.mem_cons.mp hmem with heq | hmem'
    · obtain ⟨hk, hg⟩ := Prod.mk.injEq .. ▸ heq
      subst hk
      subst hg
      simp only [List.foldl_cons]
      have hknotin : ∀ q ∈ t, q.1 ≠ k := by
        intro q hq hqk
        exact hnodup'.1 (hqk ▸ List.mem_map.mpr ⟨q, hq, rfl⟩)
      rw [dget_add_vec_updates_not_mem lc t _ k hknotin]
      rw [dget_dinsert, if_pos rfl]
      have hn : SimpleMapSimIndex.normTerm lc k = k := hnorm (k, g) (by simp)
      rw [hn]
    · have hk0ne : k0 ≠ k := by
        intro h
        subst h
        exact hnodup'.1 (List.mem_map.mpr ⟨(k0, g), hmem', rfl⟩)
      simp only [List.foldl_cons]
      rw [ih _ k g hnodup'.2 (fun q hq => hnorm q (by simp [hq])) hmem']
      rw [dgetD, dget_dinsert, if_neg hk0ne]
      rfl

theorem index_one_term_index (st : SimpleMapSimIndex) (name : String)
    (tv : List (String × Nat)) :
    (st.index_one name tv).term_index =
      (SimpleMapSimIndex.add_vec_batch st.lowercase st.localN tv).foldl
        (fun ti p =>
          dinsert ti p.1 (dgetD ti (SimpleMapSimIndex.normTerm st.lowercase p.1) [] ++ p.2))
        st.term_index := rfl

theorem index_one_lowercase (st : SimpleMapSimIndex) (name : String)
    (tv : List (String × Nat)) :
    (st.index_one name tv).lowercase = st.lowercase := rfl

/-- C4 (amended): for every engine state whose stored postings only
mention already-assigned docids, indexing a document whose term vector has
pairwise distinct NORMALIZED keys puts the new docid into the postings
list of each of its terms exactly once, with the stored frequency equal to
that term's count.  (The proviso is forced: with the lowercase option on
and two keys differing only in case, the docid is appended once per
colliding key -- see the counterexample.) -/
theorem claim_C4_postings_docid_once :
    ∀ (st : SimpleMapSimIndex) (name : String) (tv : List (String × Nat)),
      (∀ e ∈ st.term_index, ∀ q ∈ e.2, q.1 < st.localN) →
      (tv.map (fun p => SimpleMapSimIndex.normTerm st.lowercase p.1)).Nodup →
      ∀ t c, (t, c) ∈ tv →
        ((st.index_one name tv).postings_list t).filter
            (fun q => q.1 == st.localN)
          = [(st.localN, c)] := by
  intro st name tv hwf hnodup t c htc
  have hbatch := add_vec_batch_eq st.lowercase st.localN tv hnodup
  have hkeys : ((SimpleMapSimIndex.add_vec_batch st.lowercase st.localN tv).map
      Prod.fst).Nodup := by
    rw [hbatch, List.map_map]
    simpa [Function.comp_def] using hnodup
  have hnorm : ∀ q ∈ SimpleMapSimIndex.add_vec_batch st.lowercase st.localN tv,
      SimpleMapSimIndex.normTerm st.lowercase q.1 = q.1 := by
    rw [hbatch]
    intro q hq
    obtain ⟨p, _, rfl⟩ := List.mem_map.mp hq
    exact normTerm_idem _ _
  have hmem : (SimpleMapSimIndex.normTerm st.lowercase t, [(st.localN, c)]) ∈
      SimpleMapSimIndex.add_vec_batch st.lowercase st.localN tv := by
    rw [hbatch]
    exact List.mem_map.mpr ⟨(t, c), htc, rfl⟩
  have hdg := dget_add_vec_updates_mem st.lowercase
    (SimpleMapSimIndex.add_vec_batch st.lowercase st.localN tv) st.term_index
    (SimpleMapSimIndex.normTerm st.lowercase t) [(st.localN, c)] hkeys hnorm hmem
  have hpl : (st.index_one name tv).postings_list t =
      dgetD st.term_index (SimpleMapSimIndex.normTerm st.lowercase t) [] ++
        [(st.localN, c)] := by
    rw [SimpleMapSimIndex.postings_list, index_one_lowercase, dgetD,
      index_one_term_index, hdg]
    rfl
  rw [hpl, List.filter_append]
  have hold : (dgetD st.term_index (SimpleMapSimIndex.normTerm st.lowercase t) []).filter
      (fun q => q.1 == st.localN) = [] := by
    rw [List.filter_eq_nil_iff]
    intro q hq
    cases hdgo : dget st.term_index (SimpleMapSimIndex.normTerm st.lowercase t) with
    | none => rw [dgetD, hdgo] at hq; simp at hq
    | some ps =>
      rw [dgetD, hdgo] at hq
      have hmemti := dget_mem _ _ _ hdgo
      have := hwf _ hmemti q (by simpa using hq)
      simp only [beq_iff_eq]
      omega
  rw [hold]
  simp

/-- A freshly constructed leaf engine with the lowercase option ON. -/
def leafLower : SimpleMapSimIndex := SimpleMapSimIndex.init true

/-- C4, counterexample: with the lowercase option enabled, indexing a
document whose term vector holds the two case-colliding keys `Hello` and
`hello` leaves the document's docid TWICE in `postings_list("hello")`
(once per colliding key), refuting "D's id appears exactly once in
`postings_list(t)` with frequency equal to t's count" at `t = "hello"`
(count 2). -/
theorem claim_C4_counterexample :
    ("hello", 2) ∈ ([("Hello", 1), ("hello", 2)] : List (String × Nat)) ∧
    (leafLower.index_one "doc" [("Hello", 1), ("hello", 2)]).postings_list "hello"
      = [(0, 1), (0, 2)] ∧
    ((leafLower.index_one "doc" [("Hello", 1), ("hello", 2)]).postings_list "hello").countP
        (fun q => q.1 == 0) = 2 := by
  refine ⟨by decide, by decide, by decide⟩

theorem claim_C4_postings_docid_once_witness :
    (∀ e ∈ leafLower.term_index, ∀ q ∈ e.2, q.1 < leafLower.localN) ∧
    (([("Hello", 2), ("world", 1)].map
      (fun p => SimpleMapSimIndex.normTerm leafLower.lowercase p.1)).Nodup) ∧
    ("Hello", 2) ∈ ([("Hello", 2), ("world", 1)] : List (String × Nat)) ∧
    ((leafLower.index_one "doc" [("Hello", 2), ("world", 1)]).postings_list "Hello").filter
        (fun q => q.1 == leafLower.localN)
      = [(leafLower.localN, 2)] :=
  ⟨by decide, by decide, by decide,
    claim_C4_postings_docid_once leafLower "doc" [("Hello", 2), ("world", 1)]
      (by decide) (by decide) "Hello" 2 (by decide)⟩

/-! ## Bimap write-back facts (`update_global_stats`) -/

/-- The name-to-global-docid writes performed by the bimap step, in
execution order. -/
def bimapEntriesN (maps : List (Nat × List (String × Nat))) : List (String × String) :=
  (maps.map (fun sm =>
    sm.2.map (fun p => (p.1, SimIndexCollection.make_global_docid sm.1 p.2)))).flatten

/-- The global-docid-to-name writes performed by the bimap step, in
execution order. -/
def bimapEntriesD (maps : List (Nat × List (String × Nat))) : List (String × String) :=
  (maps.map (fun sm =>
    sm.2.map (fun p => (SimIndexCollection.make_global_docid sm.1 p.2, p.1)))).flatten

theorem dinsertAll_append {κ α : Type} [DecidableEq κ]
    (m : List (κ × α)) (es₁ es₂ : List (κ × α)) :
    dinsertAll m (es₁ ++ es₂) = dinsertAll (dinsertAll m es₁) es₂ :=
  List.foldl_append ..

theorem patch_bimaps_inner (sid : Nat) :
    ∀ (ps : List (String × Nat)) (n d : List (String × String)),
      ps.foldl
          (fun acc2 p =>
            let gdocid := SimIndexCollection.make_global_docid sid p.2
            (dinsert acc2.1 p.1 gdocid, dinsert acc2.2 gdocid p.1))
          (n, d)
        = (dinsertAll n (ps.map (fun p => (p.1, SimIndexCollection.make_global_docid sid p.2))),
           dinsertAll d (ps.map (fun p => (SimIndexCollection.make_global_docid sid p.2, p.1)))) := by
  intro ps
  induction ps with
  | nil => intro n d; rfl
  | cons hd t ih =>
    intro n d
    simp only [List.foldl_cons, List.map_cons]
    rw [ih]
    rfl

theorem patch_bimaps_eq :
    ∀ (maps : List (Nat × List (String × Nat))) (n d : List (String × String)),
      SimIndexCollection.patch_bimaps n d maps =
        (dinsertAll n (bimapEntriesN maps), dinsertAll d (bimapEntriesD maps)) := by
  intro maps
  induction maps with
  | nil => intro n d; rfl
  | cons sm t ih =>
    intro n d
    have hinner := patch_bimaps_inner sm.1 sm.2 n d
    show SimIndexCollection.patch_bimaps _ _ t = _
    rw [hinner, ih]
    simp only [bimapEntriesN, bimapEntriesD, List.map_cons, List.flatten_cons]
    rw [dinsertAll_append, dinsertAll_append]

theorem dget_of_filter_eq_single {α : Type} [DecidableEq α]
    (k : α) (v : α) :
    ∀ (m : List (α × α)), m.filter (fun p => p.1 == k) = [(k, v)] →
      dget m k = some v := by
  intro m
  induction m with
  | nil => intro h; simp at h
  | cons hd t ih =>
    intro h
    obtain ⟨k', v'⟩ := hd
    by_cases hk : k' = k
    · subst hk
      simp only [List.filter_cons, beq_self_eq_true, if_pos] at h
      simp only [List.cons.injEq, Prod.mk.injEq] at h
      rw [dget, if_pos rfl, h.1.2]
    · have hbeq : ((k', v').1 == k) = false := by simpa using hk
      simp only [List.filter_cons, hbeq] at h
      rw [dget, if_neg hk]
      exact ih (by simpa using h)

theorem dget_reverse_of_filter_eq_single {α : Type} [DecidableEq α]
    (m : List (α × α)) (k v : α) (h : m.filter (fun p => p.1 == k) = [(k, v)]) :
    dget m.reverse k = some v := by
  apply dget_of_filter_eq_single k v
  rw [List.filter_reverse, h]
  rfl

theorem dget_eq_none_of_filter_nil {α β : Type} [DecidableEq α] [BEq α] [LawfulBEq α]
    (m : List (α × β)) (k : α) (h : m.filter (fun p => p.1 == k) = []) :
    dget m k = none := by
  apply dget_eq_none_of_forall
  intro p hp
  have := List.filter_eq_nil_iff.mp h p hp
  simpa using this

theorem filter_bimapEntriesN_nil (name : String) :
    ∀ (maps : List (Nat × List (String × Nat))),
      (∀ sm ∈ maps, sm.2.filter (fun q => q.1 == name) = []) →
      (bimapEntriesN maps).filter (fun p => p.1 == name) = [] := by
  intro maps
  induction maps with
  | nil => intro _; rfl
  | cons sm t ih =>
    intro h
    simp only [bimapEntriesN, List.map_cons, List.flatten_cons, List.filter_append]
    rw [List.filter_map]
    have h0 : (sm.2.filter
        ((fun p => p.1 == name) ∘ fun p => (p.1, SimIndexCollection.make_global_docid sm.1 p.2)))
        = [] := h sm (by simp)
    rw [h0]
    simpa [bimapEntriesN] using ih (fun q hq => h q (by simp [hq]))

theorem filter_bimapEntriesN_single (name : String) (i lid : Nat)
    (mi : List (String × Nat)) :
    ∀ (maps : List (Nat × List (String × Nat))),
      (maps.map Prod.fst).Nodup →
      (i, mi) ∈ maps →
      mi.filter (fun q => q.1 == name) = [(name, lid)] →
      (∀ sm ∈ maps, sm.1 ≠ i → sm.2.filter (fun q => q.1 == name) = []) →
      (bimapEntriesN maps).filter (fun p => p.1 == name) =
        [(name, SimIndexCollection.make_global_docid i lid)] := by
  intro maps
  induction maps with
  | nil => intro _ hmem _ _; simp at hmem
  | cons sm t ih =>
    intro hnodup hmem hfil hothers
    rw [List.map_cons, List.nodup_cons] at hnodup
    simp only [bimapEntriesN, List.map_cons, List.flatten_cons, List.filter_append]
    rw [List.filter_map]
    rcases List.mem_cons.mp hmem with heq | hmem'
    · have hsm1 : sm.1 = i := by rw [← heq]
      have hsm2 : sm.2 = mi := by rw [← heq]
      have hblock : (sm.2.filter
          ((fun p => p.1 == name) ∘ fun p => (p.1, SimIndexCollection.make_global_docid sm.1 p.2)))
          = [(name, lid)] := by
        rw [hsm2]
        exact hfil
      rw [hblock]
      have hrest : (bimapEntriesN t).filter (fun p => p.1 == name) = [] := by
        apply filter_bimapEntriesN_nil
        intro q hq
        apply hothers q (by simp [hq])
        intro hqi
        exact hnodup.1 (hsm1 ▸ hqi ▸ List.mem_map.mpr ⟨q, hq, rfl⟩)
      rw [show (bimapEntriesN t) =
          ((t.map (fun sm =>
            sm.2.map (fun p => (p.1, SimIndexCollection.make_global_docid sm.1 p.2)))).flatten)
          from rfl] at hrest
      rw [hrest, hsm1]
      simp
    · have hsmne : sm.1 ≠ i := by
        intro h
        exact hnodup.1 (h ▸ List.mem_map.mpr ⟨(i, mi), hmem', rfl⟩)
      have hblock : (sm.2.filter
          ((fun p => p.1 == name) ∘ fun p => (p.1, SimIndexCollection.make_global_docid sm.1 p.2)))
          = [] := hothers sm (by simp) hsmne
      rw [hblock]
      have := ih hnodup.2 hmem' hfil (fun q hq => hothers q (by simp [hq]))
      rw [show (bimapEntriesN t) =
          ((t.map (fun sm =>
            sm.2.map (fun p => (p.1, SimIndexCollection.make_global_docid sm.1 p.2)))).flatten)
          from rfl] at this
      rw [this]
      rfl

theorem update_global_stats_n2d (st : SimIndexCollection) :
    st.update_global_stats.name_to_docid_map =
      dinsertAll st.name_to_docid_map
        (bimapEntriesN (SimIndexCollection.shard_name_maps st.shards)) := by
  show (SimIndexCollection.patch_bimaps st.name_to_docid_map st.docid_to_name_map
      (SimIndexCollection.shard_name_maps st.shards)).1 = _
  rw [patch_bimaps_eq]

theorem update_global_stats_d2n (st : SimIndexCollection) :
    st.update_global_stats.docid_to_name_map =
      dinsertAll st.docid_to_name_map
        (bimapEntriesD (SimIndexCollection.shard_name_maps st.shards)) := by
  show (SimIndexCollection.patch_bimaps st.name_to_docid_map st.docid_to_name_map
      (SimIndexCollection.shard_name_maps st.shards)).2 = _
  rw [patch_bimaps_eq]

theorem shard_name_maps_mem (shards : List SimpleMapSimIndex)
    (j : Nat) (m : List (String × Nat))
    (h : (j, m) ∈ SimIndexCollection.shard_name_maps shards) :
    ∃ sh, shards[j]? = some sh ∧ m = sh.name_to_docid_map := by
  rw [SimIndexCollection.shard_name_maps] at h
  have := List.mem_enum_iff_getElem?.mp h
  rw [List.getElem?_map] at this
  cases hsh : shards[j]? with
  | none => rw [hsh] at this; simp at this
  | some sh =>
    refine ⟨sh, rfl, ?_⟩
    rw [hsh] at this
    simpa [SimpleMapSimIndex.get_name_to_docid_map] using this.symm

theorem shard_name_maps_nodup_fst (shards : List SimpleMapSimIndex) :
    ((SimIndexCollection.shard_name_maps shards).map Prod.fst).Nodup := by
  rw [SimIndexCollection.shard_name_maps, List.enum_map_fst]
  exact List.nodup_range _

/-- C3 (amended): `update_global_stats` PATCHES the aggregator's
name-to-global-id bimap instead of rebuilding it from scratch: every entry
derivable from the current shards is written (a name held by exactly one
shard maps to `"{shard_id}-{local_id}"` afterwards), but entries that are
NOT derivable from the current shards -- names absent from every shard,
global ids no current shard translates to -- keep their prior values
rather than being discarded. -/
theorem claim_C3_update_global_stats_patches_bimap :
    (∀ (st : SimIndexCollection) (i : Nat) (sh : SimpleMapSimIndex)
        (name : String) (lid : Nat),
      st.shards[i]? = some sh →
      sh.name_to_docid_map.filter (fun q => q.1 == name) = [(name, lid)] →
      (∀ j sh', st.shards[j]? = some sh' → j ≠ i →
        sh'.name_to_docid_map.filter (fun q => q.1 == name) = []) →
      dget st.update_global_stats.name_to_docid_map name =
        some (SimIndexCollection.make_global_docid i lid)) ∧
    (∀ (st : SimIndexCollection) (name : String),
      (∀ sh ∈ st.shards, sh.name_to_docid_map.filter (fun q => q.1 == name) = []) →
      dget st.update_global_stats.name_to_docid_map name =
        dget st.name_to_docid_map name) ∧
    (∀ (st : SimIndexCollection) (g : String),
      (∀ (i : Nat) (sh : SimpleMapSimIndex), st.shards[i]? = some sh →
        ∀ q ∈ sh.name_to_docid_map, SimIndexCollection.make_global_docid i q.2 ≠ g) →
      dget st.update_global_stats.docid_to_name_map g =
        dget st.docid_to_name_map g) := by
  refine ⟨?_, ?_, ?_⟩
  · intro st i sh name lid hget hfil hothers
    rw [update_global_stats_n2d, dget_dinsertAll]
    have hmem : (i, sh.name_to_docid_map) ∈
        SimIndexCollection.shard_name_maps st.shards := by
      rw [SimIndexCollection.shard_name_maps]
      apply List.mem_enum_iff_getElem?.mpr
      rw [List.getElem?_map, hget]
      rfl
    have hfl := filter_bimapEntriesN_single name i lid sh.name_to_docid_map
      (SimIndexCollection.shard_name_maps st.shards)
      (shard_name_maps_nodup_fst st.shards) hmem hfil
      (by
        intro sm hsm hne
        obtain ⟨sh', hget', hm⟩ := shard_name_maps_mem st.shards sm.1 sm.2 hsm
        rw [hm]
        exact hothers sm.1 sh' hget' hne)
    rw [dget_reverse_of_filter_eq_single _ _ _ hfl]
    rfl
  · intro st name h
    rw [update_global_stats_n2d, dget_dinsertAll]
    have hfl := filter_bimapEntriesN_nil name
      (SimIndexCollection.shard_name_maps st.shards)
      (by
        intro sm hsm
        obtain ⟨sh', hget', hm⟩ := shard_name_maps_mem st.shards sm.1 sm.2 hsm
        rw [hm]
        refine h sh' ?_
        exact List.getElem?_mem hget')
    rw [dget_eq_none_of_filter_nil _ _ (by rw [List.filter_reverse, hfl]; rfl)]
    rfl
  · intro st g h
    rw [update_global_stats_d2n, dget_dinsertAll]
    have hnone : dget (bimapEntriesD (SimIndexCollection.shard_name_maps st.shards)).reverse g
        = none := by
      apply dget_eq_none_of_forall
      intro p hp
      rw [List.mem_reverse] at hp
      rw [bimapEntriesD] at hp
      obtain ⟨block, hblock, hpblock⟩ := List.mem_flatten.mp hp
      obtain ⟨sm, hsm, rfl⟩ := List.mem_map.mp hblock
      obtain ⟨q, hq, rfl⟩ := List.mem_map.mp hpblock
      obtain ⟨sh', hget', hm⟩ := shard_name_maps_mem st.shards sm.1 sm.2 hsm
      exact h sm.1 sh' hget' q (hm ▸ hq)
    rw [hnone]
    rfl

/-- A collection whose bimaps still hold an entry from a shard that has
since been removed with `clear_shards`. -/
def collGhost : SimIndexCollection :=
  { shards := [],
    shard_func_attr := ShardFuncSlot.defaultFunc,
    shard_func_underscore_attr := none,
    name_to_docid_map := [("ghost", "7-0")],
    docid_to_name_map := [("7-0", "ghost")] }

/-- C3, counterexample: on a collection with NO shards (e.g. after
`clear_shards`) whose bimap still holds the stale entry
`ghost -> "7-0"`, `update_global_stats` leaves the entry in place: the
bimap is not rebuilt from scratch and entries not derivable from the
current shards are not discarded. -/
theorem claim_C3_counterexample :
    collGhost.shards = [] ∧
    collGhost.update_global_stats.name_to_docid_map = [("ghost", "7-0")] ∧
    collGhost.update_global_stats.docid_to_name_map = [("7-0", "ghost")] :=
  ⟨rfl, rfl, rfl⟩

/-- A one-document leaf shard holding name `a` at local id 0. -/
def leafNameA : SimpleMapSimIndex :=
  { SimpleMapSimIndex.init false with name_to_docid_map := [("a", 0)], localN := 1 }

/-- One current shard plus a stale bimap entry from an earlier shard set. -/
def collC3 : SimIndexCollection :=
  { shards := [leafNameA],
    shard_func_attr := ShardFuncSlot.defaultFunc,
    shard_func_underscore_attr := none,
    name_to_docid_map := [("ghost", "7-0")],
    docid_to_name_map := [("7-0", "ghost")] }

theorem claim_C3_update_global_stats_patches_bimap_witness :
    (collC3.shards[0]? = some leafNameA ∧
      leafNameA.name_to_docid_map.filter (fun q => q.1 == "a") = [("a", 0)] ∧
      dget collC3.update_global_stats.name_to_docid_map "a" =
        some (SimIndexCollection.make_global_docid 0 0)) ∧
    ((∀ sh ∈ collC3.shards,
        sh.name_to_docid_map.filter (fun q => q.1 == "ghost") = []) ∧
      dget collC3.update_global_stats.name_to_docid_map "ghost" =
        dget collC3.name_to_docid_map "ghost") ∧
    dget collC3.update_global_stats.docid_to_name_map "7-0" =
      dget collC3.docid_to_name_map "7-0" := by
  have hothers : ∀ (j : Nat) (sh' : SimpleMapSimIndex), collC3.shards[j]? = some sh' →
      j ≠ 0 → sh'.name_to_docid_map.filter (fun q => q.1 == "a") = [] := by
    intro j sh' hj hne
    cases j with
    | zero => exact absurd rfl hne
    | succ n =>
      have h2 : (none : Option SimpleMapSimIndex) = some sh' := hj
      exact Option.noConfusion h2
  have hghost : ∀ sh ∈ collC3.shards,
      sh.name_to_docid_map.filter (fun q => q.1 == "ghost") = [] := by
    intro sh hsh
    have h2 : sh = leafNameA := List.mem_singleton.mp hsh
    subst h2
    decide
  have hgid : ∀ (i : Nat) (sh : SimpleMapSimIndex), collC3.shards[i]? = some sh →
      ∀ q ∈ sh.name_to_docid_map, SimIndexCollection.make_global_docid i q.2 ≠ "7-0" := by
    intro i sh hget q hq
    cases i with
    | zero =>
      have h2 : some leafNameA = some sh := hget
      have h3 : sh = leafNameA := (Option.some.inj h2).symm
      subst h3
      have h4 : q = ("a", 0) := List.mem_singleton.mp hq
      subst h4
      decide
    | succ n =>
      have h2 : (none : Option SimpleMapSimIndex) = some sh := hget
      exact Option.noConfusion h2
  refine ⟨⟨rfl, by decide, ?_⟩, ⟨hghost, ?_⟩, ?_⟩
  · exact claim_C3_update_global_stats_patches_bimap.1 collC3 0 leafNameA "a" 0 rfl
      (by decide) hothers
  · exact claim_C3_update_global_stats_patches_bimap.2.1 collC3 "ghost" hghost
  · exact claim_C3_update_global_stats_patches_bimap.2.2 collC3 "7-0" hgid

/-! ## Reconciliation idempotence facts -/

theorem update_global_stats_shards (st : SimIndexCollection) :
    st.update_global_stats.shards = st.shards.map
      (fun sh => (sh.set_global_N (SimIndexCollection.collect_global_N st.shards)).set_global_df_map
        (SimIndexCollection.collect_global_df_map st.shards)) := rfl

/-- Broadcasting global stats to the shards does not change any local
statistic read back by the collection pass. -/
theorem collect_global_N_broadcast (l : List SimpleMapSimIndex) (gN : Nat)
    (gdf : List (String × Nat)) :
    SimIndexCollection.collect_global_N
        (l.map (fun sh => (sh.set_global_N gN).set_global_df_map gdf)) =
      SimIndexCollection.collect_global_N l := by
  rw [SimIndexCollection.collect_global_N, SimIndexCollection.collect_global_N,
    List.foldl_map]
  rfl

theorem collect_global_df_map_broadcast (l : List SimpleMapSimIndex) (gN : Nat)
    (gdf : List (String × Nat)) :
    SimIndexCollection.collect_global_df_map
        (l.map (fun sh => (sh.set_global_N gN).set_global_df_map gdf)) =
      SimIndexCollection.collect_global_df_map l := by
  rw [SimIndexCollection.collect_global_df_map, SimIndexCollection.collect_global_df_map,
    List.foldl_map]
  rfl

theorem shard_name_maps_broadcast (l : List SimpleMapSimIndex) (gN : Nat)
    (gdf : List (String × Nat)) :
    SimIndexCollection.shard_name_maps
        (l.map (fun sh => (sh.set_global_N gN).set_global_df_map gdf)) =
      SimIndexCollection.shard_name_maps l := by
  rw [SimIndexCollection.shard_name_maps, SimIndexCollection.shard_name_maps,
    List.map_map]
  rfl

/-- C6: reconciliation is idempotent on a static collection.  A second
`update_global_stats` run with no intervening indexing recomputes the same
global corpus size and the same global document-frequency map as the
first (so it rebroadcasts identical values, and the shard states do not
change), and leaves the aggregator's name-to-global-id and
global-id-to-name maps with exactly the same contents. -/
theorem claim_C6_update_global_stats_idempotent :
    ∀ st : SimIndexCollection,
      SimIndexCollection.collect_global_N st.update_global_stats.shards =
        SimIndexCollection.collect_global_N st.shards ∧
      SimIndexCollection.collect_global_df_map st.update_global_stats.shards =
        SimIndexCollection.collect_global_df_map st.shards ∧
      st.update_global_stats.update_global_stats.shards =
        st.update_global_stats.shards ∧
      (∀ name, dget st.update_global_stats.update_global_stats.name_to_docid_map name =
        dget st.update_global_stats.name_to_docid_map name) ∧
      (∀ g, dget st.update_global_stats.update_global_stats.docid_to_name_map g =
        dget st.update_global_stats.docid_to_name_map g) := by
  intro st
  have hN : SimIndexCollection.collect_global_N st.update_global_stats.shards =
      SimIndexCollection.collect_global_N st.shards := by
    rw [update_global_stats_shards, collect_global_N_broadcast]
  have hdf : SimIndexCollection.collect_global_df_map st.update_global_stats.shards =
      SimIndexCollection.collect_global_df_map st.shards := by
    rw [update_global_stats_shards, collect_global_df_map_broadcast]
  have hmaps : SimIndexCollection.shard_name_maps st.update_global_stats.shards =
      SimIndexCollection.shard_name_maps st.shards := by
    rw [update_global_stats_shards, shard_name_maps_broadcast]
  refine ⟨hN, hdf, ?_, ?_, ?_⟩
  · rw [update_global_stats_shards st.update_global_stats, hN, hdf,
      update_global_stats_shards st, List.map_map]
    rfl
  · intro name
    rw [update_global_stats_n2d st.update_global_stats, update_global_stats_n2d st, hmaps,
      dget_dinsertAll, dget_dinsertAll]
    cases h : dget (bimapEntriesN (SimIndexCollection.shard_name_maps st.shards)).reverse name
      with
    | none => simp [Option.orElse, h]
    | some v => simp [Option.orElse, h]
  · intro g
    rw [update_global_stats_d2n st.update_global_stats, update_global_stats_d2n st, hmaps,
      dget_dinsertAll, dget_dinsertAll]
    cases h : dget (bimapEntriesD (SimIndexCollection.shard_name_maps st.shards)).reverse g
      with
    | none => simp [Option.orElse, h]
    | some v => simp [Option.orElse, h]
